import Mathlib

/-!
Shallow embedding of the `github.com/Daydev-Org/utils` Go module:
the `crypto` package (`GenerateRefreshToken`, `HashToken`), the `jwt`
package (`GenerateToken`), and the `logx1` package (`Sync`).

Machine 32-bit words are modelled as `Nat` reduced modulo `2^32`;
byte sequences as `List Nat` with entries below `256`.
-/

namespace Crypto

/-- The modulus for 32-bit word arithmetic, i.e. `2^32`. -/
def M32 : Nat := 4294967296

/-- UTF-8 encoding of a single character, as Go produces for a `string`'s
bytes (`[]byte(s)`). -/
def utf8EncodeChar (c : Char) : List Nat :=
  let n := c.toNat
  if n < 128 then [n]
  else if n < 2048 then [192 ||| (n >>> 6), 128 ||| (n &&& 63)]
  else if n < 65536 then
    [224 ||| (n >>> 12), 128 ||| ((n >>> 6) &&& 63), 128 ||| (n &&& 63)]
  else
    [240 ||| (n >>> 18), 128 ||| ((n >>> 12) &&& 63),
     128 ||| ((n >>> 6) &&& 63), 128 ||| (n &&& 63)]

/-- The UTF-8 bytes of a string, i.e. Go's `[]byte(s)`. -/
def utf8Bytes (s : String) : List Nat :=
  s.data.foldr (fun c acc => utf8EncodeChar c ++ acc) []

/-- Rotate right on 32-bit words, Go's `bits.RotateRight32`. -/
def rotr (n x : Nat) : Nat := ((x >>> n) ||| (x <<< (32 - n))) % M32

/-- SHA-256 `Ch(x,y,z) = (x AND y) XOR (NOT x AND z)` on 32-bit words. -/
def ch (x y z : Nat) : Nat := ((x &&& y) ^^^ ((x ^^^ 4294967295) &&& z)) % M32

/-- SHA-256 `Maj(x,y,z) = (x AND y) XOR (x AND z) XOR (y AND z)`. -/
def maj (x y z : Nat) : Nat := ((x &&& y) ^^^ (x &&& z) ^^^ (y &&& z)) % M32

/-- SHA-256 big Σ0. -/
def bigSigma0 (x : Nat) : Nat := (rotr 2 x ^^^ rotr 13 x ^^^ rotr 22 x) % M32

/-- SHA-256 big Σ1. -/
def bigSigma1 (x : Nat) : Nat := (rotr 6 x ^^^ rotr 11 x ^^^ rotr 25 x) % M32

/-- SHA-256 small σ0. -/
def smallSigma0 (x : Nat) : Nat := (rotr 7 x ^^^ rotr 18 x ^^^ (x >>> 3)) % M32

/-- SHA-256 small σ1. -/
def smallSigma1 (x : Nat) : Nat := (rotr 17 x ^^^ rotr 19 x ^^^ (x >>> 10)) % M32

/-- The 64 SHA-256 round constants `K`. -/
def K : List Nat :=
  [1116352408, 1899447441, 3049323471, 3921009573, 961987163,
   1508970993, 2453635748, 2870763221, 3624381080, 310598401,
   607225278, 1426881987, 1925078388, 2162078206, 2614888103,
   3248222580, 3835390401, 4022224774, 264347078, 604807628,
   770255983, 1249150122, 1555081692, 1996064986, 2554220882,
   2821834349, 2952996808, 3210313671, 3336571891, 3584528711,
   113926993, 338241895, 666307205, 773529912, 1294757372,
   1396182291, 1695183700, 1986661051, 2177026350, 2456956037,
   2730485921, 2820302411, 3259730800, 3345764771, 3516065817,
   3600352804, 4094571909, 275423344, 430227734, 506948616,
   659060556, 883997877, 958139571, 1322822218, 1537002063,
   1747873779, 1955562222, 2024104815, 2227730452, 2361852424,
   2428436474, 2756734187, 3204031479, 3329325298]

/-- The working state of the SHA-256 compression function
(eight 32-bit words `a..h`). -/
structure HState where
  a : Nat
  b : Nat
  c : Nat
  d : Nat
  e : Nat
  f : Nat
  g : Nat
  hh : Nat
  deriving Repr, DecidableEq

/-- The SHA-256 initial hash value `H(0)`. -/
def initState : HState :=
  ⟨1779033703, 3144134277, 1013904242, 2773480762,
   1359893119, 2600822924, 528734635, 1541459225⟩

/-- The eight big-endian bytes of a 64-bit length value (`len*8` in
SHA-256 padding). -/
def bytesBE8 (n : Nat) : List Nat :=
  [(n >>> 56) % 256, (n >>> 48) % 256, (n >>> 40) % 256, (n >>> 32) % 256,
   (n >>> 24) % 256, (n >>> 16) % 256, (n >>> 8) % 256, n % 256]

/-- SHA-256 padding: append `0x80`, zeros to 56 mod 64, then the 64-bit
big-endian bit length. -/
def sha256Pad (msg : List Nat) : List Nat :=
  let len := msg.length
  let k := (119 - len % 64) % 64
  msg ++ [128] ++ List.replicate k 0 ++ bytesBE8 (len * 8)

/-- Split a byte list into chunks of 64 (fuel-based so it reduces in the
kernel); the fuel is the list length, enough for every step. -/
def chunksAux : Nat → List Nat → List (List Nat)
  | 0, _ => []
  | _, [] => []
  | fuel+1, l => l.take 64 :: chunksAux fuel (l.drop 64)

/-- Split a padded message into 64-byte blocks. -/
def chunks64 (l : List Nat) : List (List Nat) := chunksAux l.length l

/-- Big-endian 32-bit words of a block (4 bytes per word). -/
def beWords : List Nat → List Nat
  | b0 :: b1 :: b2 :: b3 :: rest =>
      ((b0 <<< 24) ||| (b1 <<< 16) ||| (b2 <<< 8) ||| b3) :: beWords rest
  | _ => []

/-- Extend the 16-word message schedule by `k` more words
(`w[i] = σ1(w[i-2]) + w[i-7] + σ0(w[i-15]) + w[i-16]`). -/
def extendSchedule : List Nat → Nat → List Nat
  | w, 0 => w
  | w, k+1 =>
      let n := w.length
      let wi := (smallSigma1 (w.getD (n-2) 0) + w.getD (n-7) 0 +
                 smallSigma0 (w.getD (n-15) 0) + w.getD (n-16) 0) % M32
      extendSchedule (w ++ [wi]) k

/-- One SHA-256 compression round with round constant `ki` and schedule
word `wi`. -/
def sha256Round (st : HState) (ki wi : Nat) : HState :=
  let t1 := (st.hh + bigSigma1 st.e + ch st.e st.f st.g + ki + wi) % M32
  let t2 := (bigSigma0 st.a + maj st.a st.b st.c) % M32
  ⟨(t1 + t2) % M32, st.a, st.b, st.c, (st.d + t1) % M32, st.e, st.f, st.g⟩

/-- Process one 64-byte block: 64 rounds, then add into the chaining state. -/
def processBlock (st : HState) (block : List Nat) : HState :=
  let w := extendSchedule (beWords block) 48
  let r := (K.zip w).foldl (fun s kw => sha256Round s kw.1 kw.2) st
  ⟨(st.a + r.a) % M32, (st.b + r.b) % M32, (st.c + r.c) % M32,
   (st.d + r.d) % M32, (st.e + r.e) % M32, (st.f + r.f) % M32,
   (st.g + r.g) % M32, (st.hh + r.hh) % M32⟩

/-- Big-endian bytes of one 32-bit word. -/
def wordBytes (w : Nat) : List Nat :=
  [(w >>> 24) % 256, (w >>> 16) % 256, (w >>> 8) % 256, w % 256]

/-- SHA-256 of a byte sequence, as Go's `sha256.Sum256`: the 32-byte digest. -/
def sha256 (msg : List Nat) : List Nat :=
  let st := (chunks64 (sha256Pad msg)).foldl processBlock initState
  wordBytes st.a ++ wordBytes st.b ++ wordBytes st.c ++ wordBytes st.d ++
  wordBytes st.e ++ wordBytes st.f ++ wordBytes st.g ++ wordBytes st.hh

/-- Go's `encoding/hex` lowercase table (`const hextable = "0123456789abcdef"`). -/
def hexTable : List Char := "0123456789abcdef".data

/-- One lowercase hex digit. -/
def hexDigit (n : Nat) : Char := hexTable.getD n '0'

/-- Go's `hex.EncodeToString` on a byte list: `hextable[b>>4]` then
`hextable[b&0x0f]` per byte. -/
def hexEncode : List Nat → List Char
  | [] => []
  | b :: rest => hexDigit (b >>> 4) :: hexDigit (b &&& 15) :: hexEncode rest

/-- The function `crypto.HashToken`: lowercase hex of the SHA-256 digest
of the UTF-8 bytes of the input. -/
def HashToken (token : String) : String :=
  String.mk (hexEncode (sha256 (utf8Bytes token)))

/-- Go's `base64.RawURLEncoding` alphabet (`encodeURL` in `encoding/base64`). -/
def b64urlTable : List Char :=
  "ABCDEFGHIJKLMNOPQRSTUVWXYZabcdefghijklmnopqrstuvwxyz0123456789-_".data

/-- One character of the URL-safe base64 alphabet. -/
def b64Char (i : Nat) : Char := b64urlTable.getD i 'A'

/-- Go's `base64.Encoding.Encode` with the URL alphabet and no padding:
3-byte groups produce 4 characters via 6-bit slices; a 1-byte tail
produces 2 characters and a 2-byte tail produces 3. -/
def base64RawURLEncode : List Nat → List Char
  | b0 :: b1 :: b2 :: rest =>
      let val := (b0 <<< 16) ||| (b1 <<< 8) ||| b2
      b64Char ((val >>> 18) &&& 63) :: b64Char ((val >>> 12) &&& 63) ::
      b64Char ((val >>> 6) &&& 63) :: b64Char (val &&& 63) ::
      base64RawURLEncode rest
  | [b0, b1] =>
      let val := (b0 <<< 16) ||| (b1 <<< 8)
      [b64Char ((val >>> 18) &&& 63), b64Char ((val >>> 12) &&& 63),
       b64Char ((val >>> 6) &&& 63)]
  | [b0] =>
      let val := b0 <<< 16
      [b64Char ((val >>> 18) &&& 63), b64Char ((val >>> 12) &&& 63)]
  | [] => []

/-- The function `crypto.GenerateRefreshToken`, parameterised by the secure random
source (`rand.Read` on a fresh 64-byte buffer, which either fails or
yields the bytes it wrote). Returns Go's `(string, error)` pair, with
`none` for a nil error. -/
def GenerateRefreshToken {ε : Type} (randRead : Nat → Except ε (List Nat)) :
    String × Option ε :=
  match randRead 64 with
  | .error e => ("", some e)
  | .ok b => (String.mk (base64RawURLEncode b), none)

end Crypto

namespace Jwt

/-- The signing methods of the external `golang-jwt/jwt/v5` library
relevant to the wrapper (`jwt.SigningMethodHS256` among them). -/
inductive SigningMethod where
  | HS256
  | HS384
  | HS512
  | other (name : String)
  deriving Repr, DecidableEq

/-- A token object under construction, as built by the external library's
`jwt.NewWithClaims`: it records the chosen signing method and the claims. -/
structure Token (C : Type) where
  method : SigningMethod
  claims : C
  deriving Repr, DecidableEq

/-- The external library's `jwt.NewWithClaims`. -/
def NewWithClaims {C : Type} (m : SigningMethod) (c : C) : Token C := ⟨m, c⟩

/-- The external library's `Token.SignedString`, abstracted over the
library's signing algorithm `sign` (which sees the token's stored method,
its claims and the key). -/
def SignedString {C ε : Type}
    (sign : SigningMethod → C → List Nat → Except ε String)
    (t : Token C) (secret : List Nat) : Except ε String :=
  sign t.method t.claims secret

/-- The function `jwt.GenerateToken` from the repository: builds a token with
`jwt.SigningMethodHS256` and signs it with the secret. -/
def GenerateToken {C ε : Type}
    (sign : SigningMethod → C → List Nat → Except ε String)
    (secret : List Nat) (claims : C) : Except ε String :=
  SignedString sign (NewWithClaims SigningMethod.HS256 claims) secret

end Jwt

namespace Logx1

/-- A Go error value as seen by `errors.Is` / `errors.As` in `logx1.Sync`:
the two `syscall.Errno` sentinels of interest, an `*os.PathError` wrapping
an inner error, a generic wrapper (an error with an `Unwrap` method), and
any other leaf error (tagged to keep distinct leaves distinct). -/
inductive GoError where
  | einval
  | enotty
  | pathError (inner : GoError)
  | wrapped (inner : GoError)
  | other (code : Nat)
  deriving Repr, DecidableEq

/-- Go's `errors.Unwrap`: `*os.PathError` and generic wrappers expose
their inner error; leaf errors unwrap to nothing. -/
def unwrapErr : GoError → Option GoError
  | .pathError i => some i
  | .wrapped i => some i
  | .einval => none
  | .enotty => none
  | .other _ => none

/-- Go's `errors.Is`: the error equals the target, or the target is found
along the `Unwrap` chain. -/
def errorsIs (e target : GoError) : Bool :=
  e == target ||
    match e with
    | .pathError i => errorsIs i target
    | .wrapped i => errorsIs i target
    | _ => false

/-- Go's `errors.As` specialised to target type `*os.PathError`: the first
`*os.PathError` along the `Unwrap` chain, if any. -/
def asPathError : GoError → Option GoError
  | .pathError i => some (.pathError i)
  | .wrapped i => asPathError i
  | .einval => none
  | .enotty => none
  | .other _ => none

/-- The function `logx1.Sync`, with the logger modelled by what `Sync` inspects of it:
`none` for a nil `*zap.Logger`, and otherwise the result of the underlying
`l.Sync()` call (`none` for a nil error). -/
def Sync (l : Option (Option GoError)) : Option GoError :=
  match l with
  | none => none
  | some none => none
  | some (some err) =>
    if errorsIs err .einval || errorsIs err .enotty then none
    else
      match asPathError err with
      | some perr =>
          if errorsIs perr .einval || errorsIs perr .enotty then none
          else some err
      | none => some err

end Logx1

namespace Crypto

/-- Helper: every hex digit produced lies in the lowercase hex table. -/
theorem hexDigit_mem (n : Nat) : hexDigit n ∈ hexTable := by
  by_cases h : n < 16
  · interval_cases n <;> decide
  · rw [hexDigit, List.getD_eq_default]
    · decide
    · have hlen : hexTable.length = 16 := rfl
      omega

/-- Helper: every base64 character produced lies in the URL-safe table. -/
theorem b64Char_mem (i : Nat) : b64Char i ∈ b64urlTable := by
  by_cases h : i < 64
  · interval_cases i <;> decide
  · rw [b64Char, List.getD_eq_default]
    · decide
    · have hlen : b64urlTable.length = 64 := rfl
      omega

/-- Helper: hex encoding doubles the length. -/
theorem hexEncode_length (bs : List Nat) :
    (hexEncode bs).length = 2 * bs.length := by
  induction bs with
  | nil => simp [hexEncode]
  | cons b rest ih => simp [hexEncode, ih]; ring

/-- Helper: hex encoding only emits characters of the lowercase hex table. -/
theorem hexEncode_mem (bs : List Nat) :
    ∀ c ∈ hexEncode bs, c ∈ hexTable := by
  induction bs with
  | nil => intro c hc; simp [hexEncode] at hc
  | cons b rest ih =>
      intro c hc
      simp [hexEncode] at hc
      rcases hc with h | h | h
      · exact h ▸ hexDigit_mem _
      · exact h ▸ hexDigit_mem _
      · exact ih c h

/-- Helper: the SHA-256 digest always has 32 bytes. -/
theorem sha256_length (msg : List Nat) : (sha256 msg).length = 32 := by
  simp [sha256, wordBytes]

/-- Helper: every byte of the SHA-256 digest is below 256. -/
theorem sha256_bytes_lt (msg : List Nat) : ∀ x ∈ sha256 msg, x < 256 := by
  intro x hx
  simp [sha256, wordBytes] at hx
  rcases hx with h|h|h|h|h|h|h|h|h|h|h|h|h|h|h|h|h|h|h|h|h|h|h|h|h|h|h|h|h|h|h|h <;> omega

/-- Length of the unpadded base64 encoding of `n` input bytes. -/
def b64EncLen : Nat → Nat
  | 0 => 0
  | 1 => 2
  | 2 => 3
  | n+3 => 4 + b64EncLen n

/-- Helper: the base64 encoder's output length as a function of the input
length. -/
theorem base64RawURLEncode_length (b : List Nat) :
    (base64RawURLEncode b).length = b64EncLen b.length := by
  induction b using base64RawURLEncode.induct with
  | case1 b0 b1 b2 rest ih => simp [base64RawURLEncode, b64EncLen, ih]; omega
  | case2 b0 b1 => simp [base64RawURLEncode, b64EncLen]
  | case3 b0 => simp [base64RawURLEncode, b64EncLen]
  | case4 => simp [base64RawURLEncode, b64EncLen]

/-- Helper: the base64 encoder only emits characters of the URL-safe table. -/
theorem base64RawURLEncode_mem (b : List Nat) :
    ∀ c ∈ base64RawURLEncode b, c ∈ b64urlTable := by
  induction b using base64RawURLEncode.induct with
  | case1 b0 b1 b2 rest ih =>
      intro c hc
      simp [base64RawURLEncode] at hc
      rcases hc with h|h|h|h|h
      · exact h ▸ b64Char_mem _
      · exact h ▸ b64Char_mem _
      · exact h ▸ b64Char_mem _
      · exact h ▸ b64Char_mem _
      · exact ih c h
  | case2 b0 b1 =>
      intro c hc
      simp [base64RawURLEncode] at hc
      rcases hc with h|h|h <;> exact h ▸ b64Char_mem _
  | case3 b0 =>
      intro c hc
      simp [base64RawURLEncode] at hc
      rcases hc with h|h <;> exact h ▸ b64Char_mem _
  | case4 => intro c hc; simp [base64RawURLEncode] at hc

/-- Little-endian base-256 value of a byte list (used to map digests into
a finite type). -/
def natOfBytes : List Nat → Nat
  | [] => 0
  | b :: rest => b + 256 * natOfBytes rest

/-- Helper: `natOfBytes` of a byte list is below `256 ^ length`. -/
theorem natOfBytes_lt :
    ∀ l : List Nat, (∀ x ∈ l, x < 256) → natOfBytes l < 256 ^ l.length := by
  intro l
  induction l with
  | nil => intro _; simp [natOfBytes]
  | cons b rest ih =>
      intro hb
      have h1 : b < 256 := hb b (by simp)
      have h2 : natOfBytes rest < 256 ^ rest.length :=
        ih (fun x hx => hb x (by simp [hx]))
      simp [natOfBytes, pow_succ]
      calc b + 256 * natOfBytes rest
          < 256 + 256 * natOfBytes rest := by omega
        _ ≤ 256 * 256 ^ rest.length := by omega
        _ = 256 ^ rest.length * 256 := by ring

/-- Helper: `natOfBytes` is injective on byte lists of equal length. -/
theorem natOfBytes_inj :
    ∀ l1 l2 : List Nat, l1.length = l2.length →
      (∀ x ∈ l1, x < 256) → (∀ x ∈ l2, x < 256) →
      natOfBytes l1 = natOfBytes l2 → l1 = l2 := by
  intro l1
  induction l1 with
  | nil =>
      intro l2 hlen _ _ _
      cases l2 with
      | nil => rfl
      | cons _ _ => simp at hlen
  | cons b1 r1 ih =>
      intro l2 hlen h1 h2 hval
      cases l2 with
      | nil => simp at hlen
      | cons b2 r2 =>
          have hb1 : b1 < 256 := h1 b1 (by simp)
          have hb2 : b2 < 256 := h2 b2 (by simp)
          simp [natOfBytes] at hval
          have hhead : b1 = b2 := by omega
          have htail : natOfBytes r1 = natOfBytes r2 := by omega
          have hr : r1 = r2 :=
            ih r2 (by simpa using hlen)
              (fun x hx => h1 x (by simp [hx]))
              (fun x hx => h2 x (by simp [hx])) htail
          rw [hhead, hr]

end Crypto

namespace Logx1

/-- Helper: if `errors.As` extracts an `*os.PathError` from the chain and
that path error is (or wraps) the target, then the original error already
wraps the target. -/
theorem asPathError_errorsIs :
    ∀ e p t : GoError, asPathError e = some p → errorsIs p t = true →
      errorsIs e t = true := by
  intro e
  induction e with
  | einval => intro p t hp _; simp [asPathError] at hp
  | enotty => intro p t hp _; simp [asPathError] at hp
  | other c => intro p t hp _; simp [asPathError] at hp
  | pathError i _ =>
      intro p t hp hit
      simp [asPathError] at hp
      rw [← hp] at hit
      exact hit
  | wrapped i ih =>
      intro p t hp hit
      simp [asPathError] at hp
      have := ih p t hp hit
      simp [errorsIs]
      right
      exact this

end Logx1

namespace Crypto

/-- C1: for every successful invocation, `crypto.GenerateRefreshToken`
returns exactly the unpadded URL-safe base64 encoding of the 64 bytes it
drew from the random source, together with a nil error. -/
theorem crypto_generateRefreshToken_encodes_drawn_bytes {ε : Type}
    (randRead : Nat → Except ε (List Nat)) (b : List Nat)
    (h : randRead 64 = Except.ok b) :
    GenerateRefreshToken randRead = (String.mk (base64RawURLEncode b), none) := by
  simp [GenerateRefreshToken, h]

/-- Witness for C1: a source supplying 64 zero bytes yields the encoding
of those bytes (86 characters `A`). -/
theorem crypto_generateRefreshToken_encodes_drawn_bytes_witness :
    GenerateRefreshToken
        (fun _ => (Except.ok (List.replicate 64 0) : Except Unit (List Nat))) =
      ("AAAAAAAAAAAAAAAAAAAAAAAAAAAAAAAAAAAAAAAAAAAAAAAAAAAAAAAAAAAAAAAAAAAAAAAAAAAAAAAAAAAAAA",
       none) :=
  (crypto_generateRefreshToken_encodes_drawn_bytes _ _ rfl).trans (by decide)

/-- C3: `GenerateRefreshToken` fails exactly when the random source fails,
in which case the source's error is returned unmodified; when the source
succeeds there is no error. -/
theorem crypto_generateRefreshToken_fails_iff {ε : Type}
    (randRead : Nat → Except ε (List Nat)) :
    (∀ e : ε, (GenerateRefreshToken randRead).2 = some e ↔
      randRead 64 = Except.error e) ∧
    ((GenerateRefreshToken randRead).2 = none ↔
      ∃ b, randRead 64 = Except.ok b) := by
  constructor
  · intro e
    unfold GenerateRefreshToken
    cases h : randRead 64 <;> simp [eq_comm]
  · unfold GenerateRefreshToken
    cases h : randRead 64 <;> simp

/-- Witness for C3: a failing source's error (`7`) comes back unmodified. -/
theorem crypto_generateRefreshToken_fails_iff_witness :
    (GenerateRefreshToken
       (fun _ => (Except.error 7 : Except Nat (List Nat)))).2 = some 7 :=
  ((crypto_generateRefreshToken_fails_iff
      (fun _ => (Except.error 7 : Except Nat (List Nat)))).1 7).mpr rfl

/-- C5: on success (the source supplied its 64 bytes), the token is a
string of exactly 86 characters over the unpadded URL-safe base64
alphabet `[A-Za-z0-9_-]`. -/
theorem crypto_generateRefreshToken_token_shape {ε : Type}
    (randRead : Nat → Except ε (List Nat)) (b : List Nat)
    (hok : randRead 64 = Except.ok b) (hlen : b.length = 64) :
    (GenerateRefreshToken randRead).1.length = 86 ∧
    ∀ c ∈ (GenerateRefreshToken randRead).1.data, c ∈ b64urlTable := by
  have h1 : GenerateRefreshToken randRead =
      (String.mk (base64RawURLEncode b), none) := by
    simp [GenerateRefreshToken, hok]
  rw [h1]
  constructor
  · show (String.mk (base64RawURLEncode b)).length = 86
    have h2 := base64RawURLEncode_length b
    rw [hlen] at h2
    simp [String.length, h2]
    decide
  · intro c hc
    exact base64RawURLEncode_mem b c hc

/-- Witness for C5: with a source supplying 64 zero bytes the token has
exactly 86 characters. -/
theorem crypto_generateRefreshToken_token_shape_witness :
    (GenerateRefreshToken
       (fun _ => (Except.ok (List.replicate 64 0) : Except Unit (List Nat)))).1.length = 86 :=
  (crypto_generateRefreshToken_token_shape _ _ rfl (by decide)).1

/-- C8: whenever `GenerateRefreshToken` returns a non-nil error, the token
value it returns is exactly the empty string. -/
theorem crypto_generateRefreshToken_error_yields_empty {ε : Type}
    (randRead : Nat → Except ε (List Nat)) (e : ε)
    (h : randRead 64 = Except.error e) :
    GenerateRefreshToken randRead = ("", some e) := by
  simp [GenerateRefreshToken, h]

/-- Witness for C8: a failing source yields the empty token and its error. -/
theorem crypto_generateRefreshToken_error_yields_empty_witness :
    GenerateRefreshToken
        (fun _ => (Except.error 3 : Except Nat (List Nat))) = ("", some 3) :=
  crypto_generateRefreshToken_error_yields_empty _ 3 rfl

/-- C2: `HashToken` equals the lowercase hexadecimal encoding of the
32-byte SHA-256 digest of the UTF-8 bytes of the input, and is a
64-character string over the lowercase hex alphabet. -/
theorem crypto_hashToken_is_64_hex (s : String) :
    HashToken s = String.mk (hexEncode (sha256 (utf8Bytes s))) ∧
    (HashToken s).length = 64 ∧
    ∀ c ∈ (HashToken s).data, c ∈ hexTable := by
  refine ⟨rfl, ?_, ?_⟩
  · show (String.mk (hexEncode (sha256 (utf8Bytes s)))).length = 64
    simp [String.length, hexEncode_length, sha256_length]
  · intro c hc
    exact hexEncode_mem _ c hc

/-- Witness for C2 at the concrete input `"a"`. -/
theorem crypto_hashToken_is_64_hex_witness :
    HashToken "a" = String.mk (hexEncode (sha256 (utf8Bytes "a"))) ∧
    (HashToken "a").length = 64 :=
  ⟨(crypto_hashToken_is_64_hex "a").1, (crypto_hashToken_is_64_hex "a").2.1⟩

/-- C6: `HashToken` is deterministic: identical inputs always yield
identical outputs (and the function is total, with no error path in its
result type). -/
theorem crypto_hashToken_deterministic (s1 s2 : String) (h : s1 = s2) :
    HashToken s1 = HashToken s2 := by rw [h]

/-- Witness for C6: two invocations on `"token"` agree. -/
theorem crypto_hashToken_deterministic_witness :
    HashToken "token" = HashToken "token" :=
  crypto_hashToken_deterministic "token" "token" rfl

/-- C4 (counterexample): `HashToken ""` differs from the 63-character
constant printed in the spec, which drops the final hex digit of the
well-known empty-input digest. -/
theorem crypto_hashToken_empty_ne_spec_constant :
    HashToken "" ≠
      "e3b0c44298fc1c149afbf4c8996fb92427ae41e4649b934ca495991b7852b85" := by
  decide

/-- C4 (amended): `HashToken ""` equals the well-known 64-character
lowercase-hex SHA-256 digest of the empty input. -/
theorem crypto_hashToken_empty_digest :
    HashToken "" =
      "e3b0c44298fc1c149afbf4c8996fb92427ae41e4649b934ca495991b7852b855" := by
  decide

/-- Digest size bound used for the pigeonhole argument: the base-256
value of an input's digest is below `256 ^ 32`. -/
theorem digestNat_lt (n : Nat) :
    natOfBytes (sha256 (utf8Bytes (String.mk (List.replicate n 'a')))) < 256 ^ 32 := by
  have h2 := sha256_bytes_lt (utf8Bytes (String.mk (List.replicate n 'a')))
  have h3 := natOfBytes_lt _ h2
  rwa [sha256_length] at h3

/-- Proof device (not part of the source): the digest of the string of
`n` letters `a`, packed into the finite type `Fin (256 ^ 32)`. -/
def digestVal (n : Nat) : Fin (256 ^ 32) :=
  ⟨natOfBytes (sha256 (utf8Bytes (String.mk (List.replicate n 'a')))), digestNat_lt n⟩

/-- Unfolding equation for `digestVal`. -/
theorem digestVal_val (n : Nat) :
    (digestVal n).val =
      natOfBytes (sha256 (utf8Bytes (String.mk (List.replicate n 'a')))) := rfl

/-- Pigeonhole: some two distinct message lengths give equal SHA-256
digests, since digests range over a finite set. -/
theorem digest_collision : ∃ n1 n2 : Nat, n1 ≠ n2 ∧
    sha256 (utf8Bytes (String.mk (List.replicate n1 'a'))) =
    sha256 (utf8Bytes (String.mk (List.replicate n2 'a'))) := by
  obtain ⟨n1, n2, hne, heq⟩ := Finite.exists_ne_map_eq_of_infinite digestVal
  have hval := congrArg Fin.val heq
  rw [digestVal_val, digestVal_val] at hval
  refine ⟨n1, n2, hne, ?_⟩
  apply natOfBytes_inj _ _ (by simp only [sha256_length])
    (sha256_bytes_lt _) (sha256_bytes_lt _) hval

/-- C7 (counterexample): `HashToken` cannot be injective on all strings:
its output ranges over a finite set (64 lowercase hex characters) while
its domain is infinite, so two distinct strings share a fingerprint. -/
theorem crypto_hashToken_not_injective :
    ¬ (∀ s1 s2 : String, s1 ≠ s2 → HashToken s1 ≠ HashToken s2) := by
  intro hinj
  obtain ⟨n1, n2, hne, hdig⟩ := digest_collision
  have hhash : HashToken (String.mk (List.replicate n1 'a')) =
      HashToken (String.mk (List.replicate n2 'a')) := by
    unfold HashToken
    rw [hdig]
  have hsne : String.mk (List.replicate n1 'a') ≠
      String.mk (List.replicate n2 'a') := by
    intro hcon
    apply hne
    have hdata := congrArg String.data hcon
    have hl := congrArg List.length hdata
    simp only [List.length_replicate] at hl
    exact hl
  exact hinj _ _ hsne hhash

set_option maxRecDepth 10000 in
/-- C7 (amended): on a concrete spot-check sample of distinct strings the
fingerprints are pairwise distinct. -/
theorem crypto_hashToken_spotcheck_distinct :
    List.Pairwise (fun s1 s2 => HashToken s1 ≠ HashToken s2)
      ["", "a", "b", "token", "refresh"] := by
  decide

end Crypto

namespace Jwt

/-- C9: `jwt.GenerateToken` always signs with the HMAC-SHA256 method: the
token it builds carries `SigningMethod.HS256`, and the result is the
signing backend applied at HS256, for every backend, secret and claims. -/
theorem jwt_generateToken_always_hs256 {C ε : Type}
    (sign : SigningMethod → C → List Nat → Except ε String)
    (secret : List Nat) (claims : C) :
    (NewWithClaims SigningMethod.HS256 claims).method = SigningMethod.HS256 ∧
    GenerateToken sign secret claims = sign SigningMethod.HS256 claims secret :=
  ⟨rfl, rfl⟩

end Jwt

namespace Logx1

/-- Helper: `Sync` on a live logger whose sync returned an error filters
exactly the errors that are or wrap `EINVAL`/`ENOTTY` (the `*os.PathError`
branch of the source adds nothing beyond `errors.Is`). -/
theorem sync_err_eq (e : GoError) :
    Sync (some (some e)) =
      if errorsIs e GoError.einval || errorsIs e GoError.enotty then none
      else some e := by
  unfold Sync
  by_cases h : (errorsIs e GoError.einval || errorsIs e GoError.enotty) = true
  · simp [h]
  · simp only [Bool.not_eq_true] at h
    simp only [h, Bool.false_eq_true, if_false]
    rcases hp : asPathError e with _ | p
    · rfl
    · rcases hq : (errorsIs p GoError.einval || errorsIs p GoError.enotty) with _ | _
      · simp [hq]
      · exfalso
        have h1 : errorsIs p GoError.einval = true ∨ errorsIs p GoError.enotty = true := by
          simpa using hq
        rcases h1 with h1 | h1
        · have h2 := asPathError_errorsIs e p GoError.einval hp h1
          rw [h2] at h
          simp at h
        · have h2 := asPathError_errorsIs e p GoError.enotty hp h1
          rw [h2] at h
          simp at h

/-- C10: `logx1.Sync` returns nil exactly when the logger is nil, the
underlying sync succeeded, or the underlying error is or wraps
`EINVAL`/`ENOTTY` (including via an `*os.PathError`); in every other case
it returns the underlying error unchanged. -/
theorem logx1_sync_filters_benign (l : Option (Option GoError)) :
    (Sync l = none ↔
      (l = none ∨ l = some none ∨
        ∃ e, l = some (some e) ∧
          (errorsIs e GoError.einval = true ∨ errorsIs e GoError.enotty = true))) ∧
    (∀ e, l = some (some e) →
      errorsIs e GoError.einval = false → errorsIs e GoError.enotty = false →
      Sync l = some e) := by
  rcases l with _ | el
  · constructor
    · simp [Sync]
    · intro e h
      simp at h
  · rcases el with _ | e
    · constructor
      · simp [Sync]
      · intro e h
        simp at h
    · constructor
      · rw [sync_err_eq]
        by_cases h : (errorsIs e GoError.einval || errorsIs e GoError.enotty) = true
        · rw [if_pos h]
          constructor
          · intro _
            exact Or.inr (Or.inr ⟨e, rfl, by simpa using h⟩)
          · intro _
            rfl
        · rw [if_neg h]
          constructor
          · intro hcon
            simp at hcon
          · intro hr
            rcases hr with h0 | h0 | ⟨e2, he2, hb⟩
            · simp at h0
            · simp at h0
            · exfalso
              have he : e2 = e := by
                injection he2 with h3
                injection h3 with h4
                exact h4.symm
              subst he
              apply h
              rcases hb with hb | hb <;> simp [hb]
      · intro e2 he2 h1 h2
        have he : e2 = e := by
          injection he2 with h3
          injection h3 with h4
          exact h4.symm
        subst he
        rw [sync_err_eq, h1, h2]
        rfl

/-- Witness for C10: a plain leaf error (neither EINVAL nor ENOTTY, and
wrapping neither) is returned unchanged. -/
theorem logx1_sync_filters_benign_witness :
    Sync (some (some (GoError.other 0))) = some (GoError.other 0) :=
  (logx1_sync_filters_benign (some (some (GoError.other 0)))).2
    (GoError.other 0) rfl (by decide) (by decide)

end Logx1
